import Mathlib

/-!
# nikochiko/smtp-go: the connection handler of `server/server.go`

A shallow embedding of the session handler (`handleConnection`, the three
command handlers, the line parser and the session state) together with the
properties of it that are checked against the specification.

Modelling conventions.

* A Go `string` is its sequence of bytes: `GoString := List Byte`, a byte being
  a natural number.  String literals of the source are written `bytes "..."`,
  the UTF-8 encoding of the literal.
* A Go `error` value is `Option GoError`: `none` is `nil`, and a `GoError`
  carries the text its `Error()` method returns.
* The connection (`net.Conn`) is a record `Conn` holding the results the
  successive `Write` calls will report and the trace of every call made on the
  connection so far.  What the successive `Read` calls deliver is the list
  `reads` given to the command loop; a `Read` after the list is exhausted fails
  with `EOF`.
* A run-time panic (slice bounds, index out of range) is an explicit result,
  `Result.panic`.
-/

namespace SmtpGo

/-! ## Strings -/

/-- One byte of a Go string. -/
abbrev Byte := Nat

/-- A Go string: a sequence of bytes. -/
abbrev GoString := List Byte

/-- The bytes (UTF-8) of a string literal of the source. -/
def bytes (s : String) : GoString :=
  (s.data.flatMap String.utf8EncodeChar).map UInt8.toNat

/-- The separator `" "` used by every split in the source, as its single byte. -/
def space : Byte := 32

/-- Library `strings.Index(s, sep)` for a one-byte separator: the index of the
first occurrence of `sep` in `s`, or `-1`. -/
def Index (s : GoString) (sep : Byte) : Int :=
  if sep ∈ s then (s.indexOf sep : Int) else -1

/-- Library `strings.Count(s, sep)` for a one-byte separator. -/
def Count (s : GoString) (sep : Byte) : Nat :=
  s.count sep

/-- The filling loop of the library's `genSplit` (with `sepSave = 0` and
`len(sep) = 1`): `k` is the number of cuts still allowed (`n - 1 - i`); the
result is `a[i:]`, ending with the remainder `a[i] = s`. -/
def genSplitLoop (sep : Byte) : Nat → GoString → List GoString
  | 0, s => [s]
  | k + 1, s =>
    let m := Index s sep
    if m < 0 then [s]
    else s.take m.toNat :: genSplitLoop sep k (s.drop (m.toNat + 1))

/-- Library `strings.genSplit(s, sep, 0, n)` for a one-byte separator. -/
def genSplit (s : GoString) (sep : Byte) (n : Int) : List GoString :=
  if n = 0 then []
  else
    let n1 : Nat := if n < 0 then Count s sep + 1 else n.toNat
    let n2 : Nat := if n1 > s.length + 1 then s.length + 1 else n1
    genSplitLoop sep (n2 - 1) s

/-- Library `strings.SplitN(s, sep, n)`. -/
def SplitN (s : GoString) (sep : Byte) (n : Int) : List GoString :=
  genSplit s sep n

/-- Library `strings.Split(s, sep)`, which is `genSplit(s, sep, 0, -1)`. -/
def Split (s : GoString) (sep : Byte) : List GoString :=
  genSplit s sep (-1)

/-- Library `strings.ToUpper`.  On an all-ASCII string the library maps the
bytes `a`..`z` to `A`..`Z` (returning the string itself when it has no lower
case letter); on any other string it returns `Map(unicode.ToUpper, s)`, which
is the parameter `mapUpper` here. -/
def ToUpper (mapUpper : GoString → GoString) (s : GoString) : GoString :=
  let isASCII := s.all (fun c => decide (c < 128))
  let hasLower := s.any (fun c => decide (97 ≤ c ∧ c ≤ 122))
  if isASCII then
    if !hasLower then s
    else s.map (fun c => if 97 ≤ c ∧ c ≤ 122 then c - 32 else c)
  else mapUpper s

/-- Decimal text of a number, as `%d` prints it. -/
def itoa (n : Nat) : GoString := bytes (toString n)

/-! ## Package `smtpstatus` -/

def WelcomeOK : Nat := 220
def ReplyOK : Nat := 250
def IntermediateReply : Nat := 354
def UnknownCommand : Nat := 500
def BadSequence : Nat := 503
def WelcomeNotOK : Nat := 554

/-! ## Messages -/

def version : GoString := bytes "0.0.1"

/-- The template `welcomeMessage` applied to its argument: the package
variable is `"220 %s nikochiko/smtp-go server 0.0.1 welcomes you 🙏"`, and
`fmt.Sprintf(welcomeMessage, domain)` fills the `%s`. -/
def welcomeMessage (domain : GoString) : GoString :=
  itoa WelcomeOK ++ bytes " " ++ domain ++ bytes " nikochiko/smtp-go server " ++ version
    ++ bytes " welcomes you 🙏"

def statusOKMessage : GoString := itoa ReplyOK ++ bytes " OK"

def badSequenceMessage : GoString := itoa BadSequence ++ bytes " bad sequence of commands"

/-- The template `unknownCommandMessage` (`500 unknown command: "%s"`) applied
to its argument. -/
def unknownCommandMessage (command : GoString) : GoString :=
  itoa UnknownCommand ++ bytes " unknown command: \"" ++ command ++ bytes "\""

def closingMessage : GoString :=
  bytes "Closing connection. Thank you for interacting with nikochiko/smtp-go server. Come back often :)"

/-- The line terminator appended by `writeStringWithCRLF`. -/
def CRLF : GoString := bytes "\r\n"

/-! ## Parsing a command line -/

def normalizeCommand (mapUpper : GoString → GoString) (c : GoString) : GoString :=
  ToUpper mapUpper c

def getCommand (input : GoString) : GoString :=
  let parts := SplitN input space 2
  if parts.length ≥ 1 then parts.getD 0 []
  else []

def getText (input : GoString) : GoString :=
  let parts := SplitN input space 2
  if parts.length ≥ 2 then parts.getD 1 []
  else []

/-! ## Errors, the connection and its trace -/

/-- A non-nil Go `error`; `msg` is what `Error()` returns. -/
structure GoError where
  msg : GoString
deriving DecidableEq, Repr

/-- Library `errors.New(text)`. -/
def errorsNew (text : GoString) : GoError := ⟨text⟩

/-- The error a `Read` reports once the peer has nothing more to deliver. -/
def EOF : GoError := ⟨bytes "EOF"⟩

/-- What one call of `conn.Read(buffer)` meets: the bytes available to that
call, or a failure (deadline exceeded, reset, closed). -/
inductive ReadOutcome
  | data (chunk : GoString)
  | fail (e : GoError)
deriving DecidableEq, Repr

/-- One call made on the connection. -/
inductive Event
  /-- `conn.SetReadDeadline(time.Now().Add(timeout))`, the timeout in nanoseconds. -/
  | setReadDeadline (timeout : Nat)
  /-- `conn.Read(buffer)` and what it met. -/
  | read (r : ReadOutcome)
  /-- `conn.Write(b)` and the error it reported. -/
  | write (b : GoString) (res : Option GoError)
  /-- `conn.Close()`. -/
  | close
deriving DecidableEq, Repr

/-- The connection: the errors the coming `Write` calls will report (`none`
is success; after the list is used up every write succeeds) and the calls made
so far, oldest first. -/
structure Conn where
  writeResults : List (Option GoError)
  trace : List Event
deriving DecidableEq, Repr

/-- Library `time.Second`, in nanoseconds. -/
def Second : Nat := 1000000000

def Conn.Write (c : Conn) (b : GoString) : Option GoError × Conn :=
  let res : Option GoError := c.writeResults.headD none
  (res, { writeResults := c.writeResults.tail, trace := c.trace ++ [Event.write b res] })

def Conn.SetReadDeadline (c : Conn) (timeout : Nat) : Conn :=
  { c with trace := c.trace ++ [Event.setReadDeadline timeout] }

/-- The call `conn.Read(buffer)` meeting `r`: the buffer afterwards and the
pair `(length, err)` returned.  At most `len(buffer)` bytes are delivered; they
overwrite the start of the buffer. -/
def Conn.Read (c : Conn) (buffer : GoString) (r : ReadOutcome) :
    (GoString × Nat × Option GoError) × Conn :=
  let c1 : Conn := { c with trace := c.trace ++ [Event.read r] }
  match r with
  | .data chunk =>
    let length := min chunk.length buffer.length
    ((chunk.take length ++ buffer.drop length, length, none), c1)
  | .fail e => ((buffer, 0, some e), c1)

def Conn.Close (c : Conn) : Conn :=
  { c with trace := c.trace ++ [Event.close] }

def writeStringWithCRLF (w : Conn) (s : GoString) : Option GoError × Conn :=
  let b := s ++ CRLF
  let (err, w1) := w.Write b
  match err with
  | some e => (some e, w1)
  | none => (none, w1)

/-! ## Session state -/

structure StateTable where
  From : GoString
  To : List GoString
  Data : GoString
deriving DecidableEq, Repr

/-- The zero value `StateTable{}`. -/
def StateTable.zero : StateTable := { From := [], To := [], Data := [] }

def StateTable.Clear (_st : StateTable) : Option GoError × StateTable :=
  (none, { From := [], To := [], Data := [] })

structure SMTPConn where
  conn : Conn
  ClientDomain : GoString
  stateTable : StateTable
deriving DecidableEq, Repr

def NewSMTPConn (conn : Conn) : SMTPConn :=
  { conn := conn, ClientDomain := [], stateTable := StateTable.zero }

def SMTPConn.ClearState (sconn : SMTPConn) : Option GoError × SMTPConn :=
  let (err, st) := sconn.stateTable.Clear
  let sconn1 : SMTPConn := { sconn with stateTable := st }
  match err with
  | some e => (some e, sconn1)
  | none => (none, sconn1)

/-- The result of a method that may panic: it returns `v`, leaving the session
in state `s`, or it panics in state `s`. -/
inductive Result (α : Type)
  | ok (v : α) (s : SMTPConn)
  | panic (s : SMTPConn)
deriving DecidableEq, Repr

/-- The session state a result leaves behind. -/
def Result.state {α : Type} : Result α → SMTPConn
  | .ok _ s => s
  | .panic s => s

/-- The value returned, if the method returned. -/
def Result.value? {α : Type} : Result α → Option α
  | .ok v _ => some v
  | .panic _ => none

/-- `ReadLineWithTimeout`, its `conn.Read` meeting `r`.  The slice expression
`buffer[:length-2]` panics when `length - 2` is negative. -/
def SMTPConn.ReadLineWithTimeout (sconn : SMTPConn) (timeout : Nat) (r : ReadOutcome) :
    Result (GoString × Option GoError) :=
  let conn := sconn.conn
  let buffer0 : GoString := List.replicate 1000 0
  let conn0 := conn.SetReadDeadline timeout
  let ((buffer, length, err), conn1) := conn0.Read buffer0 r
  let sconn1 : SMTPConn := { sconn with conn := conn1 }
  match err with
  | some e => .ok ([], some e) sconn1
  | none =>
    if length < 2 then .panic sconn1
    else .ok (buffer.take (length - 2), none) sconn1

/-- `HandleHELO`.  The index expression `words[0]` panics on an empty slice. -/
def SMTPConn.HandleHELO (sconn : SMTPConn) (_command : GoString) (text : GoString) :
    Result (Option GoError) :=
  if sconn.stateTable.From ≠ [] then
    let (err, conn1) := writeStringWithCRLF sconn.conn badSequenceMessage
    .ok err { sconn with conn := conn1 }
  else
    let words := Split text space
    match words with
    | [] => .panic sconn
    | w0 :: _ =>
      let sconn1 : SMTPConn := { sconn with ClientDomain := w0 }
      let (err, conn1) := writeStringWithCRLF sconn1.conn statusOKMessage
      .ok err { sconn1 with conn := conn1 }

def SMTPConn.HandleUnknownCommand (sconn : SMTPConn) (command : GoString) (_text : GoString) :
    Result (Option GoError) :=
  let messageText := unknownCommandMessage command
  let (err, conn1) := writeStringWithCRLF sconn.conn messageText
  .ok err { sconn with conn := conn1 }

def SMTPConn.HandleQUIT (sconn : SMTPConn) (_command : GoString) (_text : GoString) :
    Result (Option GoError) :=
  let (err, conn1) := writeStringWithCRLF sconn.conn closingMessage
  let sconn1 : SMTPConn := { sconn with conn := conn1 }
  match err with
  | some e => .ok (some e) sconn1
  | none => .ok (some (errorsNew (bytes "client issued QUIT command"))) sconn1

/-! ## The connection supervisor -/

structure Server where
  Port : Int
  Domain : GoString
deriving DecidableEq, Repr

def Server.getWelcomeMessage (s : Server) : GoString :=
  welcomeMessage s.Domain

/-- The error built by `fmt.Errorf("error while reading input from client: %s", err.Error())`. -/
def readingError (e : GoError) : GoError :=
  ⟨bytes "error while reading input from client: " ++ e.msg⟩

/-- The error built by
`fmt.Errorf("error while processing command \"%s\": %s", command, err.Error())`. -/
def processingError (command : GoString) (e : GoError) : GoError :=
  ⟨bytes "error while processing command \"" ++ command ++ bytes "\": " ++ e.msg⟩

/-- Lines 73-88 of `handleConnection`: parse the line read, route it to a
handler, and wrap a handler error.  The value is the loop-local `err` after
the second `if err != nil`: `some _` means `break`, `none` means the loop goes
round again. -/
def dispatch (smtpConn : SMTPConn) (input : GoString) : Result (Option GoError) :=
  let command := getCommand input
  let text := getText input
  let handled : Result (Option GoError) :=
    if command = bytes "QUIT" then smtpConn.HandleQUIT command text
    else if command = bytes "HELO" then smtpConn.HandleHELO command text
    else smtpConn.HandleUnknownCommand command text
  match handled with
  | .panic s => .panic s
  | .ok (some e) s => .ok (some (processingError command e)) s
  | .ok none s => .ok none s

/-- One round of the `for` loop of `handleConnection`, its read meeting `r`. -/
def loopBody (smtpConn : SMTPConn) (r : ReadOutcome) : Result (Option GoError) :=
  let timeout := 30 * Second
  match smtpConn.ReadLineWithTimeout timeout r with
  | .panic s => .panic s
  | .ok (_, some e) s => .ok (some (readingError e)) s
  | .ok (input, none) s => dispatch s input

/-- The `for` loop of `handleConnection`, the successive reads meeting
`reads` and then `EOF`.  The value is the loop-local `err` at the `break`. -/
def commandLoop : List ReadOutcome → SMTPConn → Result (Option GoError)
  | [], smtpConn => loopBody smtpConn (.fail EOF)
  | r :: rest, smtpConn =>
    match loopBody smtpConn r with
    | .ok none s => commandLoop rest s
    | out => out

/-- How a call of `handleConnection` ends. -/
inductive Exit
  /-- It returns its named result `err`. -/
  | returned (err : Option GoError)
  /-- It panics; there is no `recover`, so the process dies. -/
  | panicked
  /-- It reaches `log.Fatal(err)`, which exits the process. -/
  | fatal (err : GoError)
deriving DecidableEq, Repr

/-- `handleConnection`.  The named result `err` is declared by the signature;
the `err` of `input, err := ...` inside the loop is a different variable, so
the loop never assigns the named one.  The deferred `conn.Close()` runs on
return and on panic, not on `log.Fatal`. -/
def Server.handleConnection (s : Server) (conn : Conn) (reads : List ReadOutcome) : Exit × Conn :=
  let err : Option GoError := none
  let welcome := s.getWelcomeMessage
  let (_, conn1) := writeStringWithCRLF conn welcome
  let smtpConn := NewSMTPConn conn1
  match commandLoop reads smtpConn with
  | .panic sc => (Exit.panicked, sc.conn.Close)
  | .ok _ sc =>
    match err with
    | some e => (Exit.fatal e, sc.conn)
    | none => (Exit.returned err, sc.conn.Close)

/-! ## Auxiliary notions for the statements -/

/-- The session after a handler has written `msg` as one line. -/
def afterWrite (s : SMTPConn) (msg : GoString) : SMTPConn :=
  { s with conn := (writeStringWithCRLF s.conn msg).2 }

/-- The session after `ReadLineWithTimeout` has set the deadline and read. -/
def afterRead (s : SMTPConn) (timeout : Nat) (r : ReadOutcome) : SMTPConn :=
  { s with conn := ⟨s.conn.writeResults,
      s.conn.trace ++ [Event.setReadDeadline timeout, Event.read r]⟩ }

/-- The events made by the loop: after the read of a line whose verb is QUIT
there is the write of the closing message and nothing more. -/
def stopsAfterQUIT (ev : List Event) : Prop :=
  ∀ (pre post : List Event) (r : ReadOutcome) (s0 s1 : SMTPConn) (input : GoString),
    ev = pre ++ Event.read r :: post →
    s0.ReadLineWithTimeout (30 * Second) r = .ok (input, none) s1 →
    getCommand input = bytes "QUIT" →
    ∃ res, post = [Event.write (closingMessage ++ CRLF) res]

/-- The message the dispatcher answers the line `input` with in state `s`,
branch by branch of the `switch` and of `HandleHELO`. -/
def responseText (s : SMTPConn) (input : GoString) : GoString :=
  if getCommand input = bytes "QUIT" then closingMessage
  else if getCommand input = bytes "HELO" then
    if s.stateTable.From = [] then statusOKMessage else badSequenceMessage
  else unknownCommandMessage (getCommand input)

/-- The part of a text before its first space (the whole text when it has none). -/
def beforeFirstSpace (text : GoString) : GoString :=
  text.takeWhile (fun c => decide (c ≠ space))

/-- Whitespace in the sense of the description of HELO's argument: space or tab. -/
def isWhitespace (c : Byte) : Bool :=
  c = 32 || c = 9

/-- The first whitespace-delimited token of a text as the specification
describes it: leading whitespace skipped, then the maximal run of
non-whitespace bytes. -/
def firstWhitespaceToken (text : GoString) : GoString :=
  (text.dropWhile isWhitespace).takeWhile (fun c => !isWhitespace c)

/-- The session states the command loop passes through on the connection
`conn0`: the state made by `NewSMTPConn`, and the state each round of the loop
leaves, whatever its read meets. -/
inductive LoopReachable (conn0 : Conn) : SMTPConn → Prop
  | start : LoopReachable conn0 (NewSMTPConn conn0)
  | round (s : SMTPConn) (r : ReadOutcome) :
      LoopReachable conn0 s → LoopReachable conn0 (loopBody s r).state

/-- One call of a method of the session, with its arguments. -/
inductive Call
  | HandleHELO (command text : GoString)
  | HandleUnknownCommand (command text : GoString)
  | HandleQUIT (command text : GoString)
  | ClearState
deriving DecidableEq, Repr

/-- The session after the call. -/
def Call.run (s : SMTPConn) : Call → SMTPConn
  | .HandleHELO command text => (s.HandleHELO command text).state
  | .HandleUnknownCommand command text => (s.HandleUnknownCommand command text).state
  | .HandleQUIT command text => (s.HandleQUIT command text).state
  | .ClearState => (s.ClearState).2

/-- The text of the call when it is a HELO that state `s` accepts (From empty). -/
def Call.acceptedHELO (s : SMTPConn) : Call → Option GoString
  | .HandleHELO _ text => if s.stateTable.From = [] then some text else none
  | _ => none

/-- The session after a sequence of calls, together with the text of the most
recent accepted HELO (`last` before the calls). -/
def runCalls : List Call → SMTPConn → Option GoString → SMTPConn × Option GoString
  | [], s, last => (s, last)
  | c :: cs, s, last =>
    runCalls cs (c.run s)
      (match c.acceptedHELO s with
       | some text => some text
       | none => last)

/-! ## Splitting at the separator -/

theorem Index_of_not_mem (s : GoString) (sep : Byte) (h : sep ∉ s) : Index s sep = -1 := by
  simp [Index, h]

theorem Index_append_cons (a b : GoString) (sep : Byte) (h : sep ∉ a) :
    Index (a ++ sep :: b) sep = (a.length : Int) := by
  have hmem : sep ∈ a ++ sep :: b := by simp
  have hidx : (a ++ sep :: b).indexOf sep = a.length := by
    induction a with
    | nil => simp
    | cons x xs ih =>
      have hx : x ≠ sep := fun e => h (by simp [e])
      have hxs : sep ∉ xs := fun e => h (by simp [e])
      have hmem2 : sep ∈ xs ++ sep :: b := by simp
      simp [List.indexOf_cons, hx, ih hxs hmem2]
  simp only [Index, hmem, if_true, hidx]

/-- A string with a separator in it splits at the first one. -/
theorem exists_first_sep (s : GoString) (sep : Byte) (h : sep ∈ s) :
    ∃ a b, s = a ++ sep :: b ∧ sep ∉ a := by
  induction s with
  | nil => simp at h
  | cons x xs ih =>
    by_cases hx : x = sep
    · exact ⟨[], xs, by simp [hx], by simp⟩
    · have hxs : sep ∈ xs := by
        rcases List.mem_cons.mp h with e | e
        · exact absurd e.symm hx
        · exact e
      obtain ⟨a, b, hab, ha⟩ := ih hxs
      refine ⟨x :: a, b, by simp [hab], ?_⟩
      intro hm
      rcases List.mem_cons.mp hm with e | e
      · exact hx e.symm
      · exact ha e

theorem SplitN_two_of_not_mem (s : GoString) (sep : Byte) (h : sep ∉ s) :
    SplitN s sep 2 = [s] := by
  cases s with
  | nil => simp [SplitN, genSplit, genSplitLoop]
  | cons x xs =>
    have hI := Index_of_not_mem (x :: xs) sep h
    simp [SplitN, genSplit, genSplitLoop, hI]

theorem SplitN_two_append_cons (a b : GoString) (sep : Byte) (h : sep ∉ a) :
    SplitN (a ++ sep :: b) sep 2 = [a, b] := by
  have hI := Index_append_cons a b sep h
  have hlen : 1 ≤ a.length + (b.length + 1) := by omega
  simp [SplitN, genSplit, genSplitLoop, hI, hlen]

theorem Split_of_not_mem (s : GoString) (sep : Byte) (h : sep ∉ s) :
    Split s sep = [s] := by
  simp [Split, genSplit, Count, List.count_eq_zero_of_not_mem h, genSplitLoop]

theorem getCommand_of_not_mem (line : GoString) (h : space ∉ line) : getCommand line = line := by
  simp [getCommand, SplitN_two_of_not_mem line space h]

theorem getText_of_not_mem (line : GoString) (h : space ∉ line) : getText line = [] := by
  simp [getText, SplitN_two_of_not_mem line space h]

theorem getCommand_append_cons (a b : GoString) (h : space ∉ a) :
    getCommand (a ++ space :: b) = a := by
  simp [getCommand, SplitN_two_append_cons a b space h]

theorem getText_append_cons (a b : GoString) (h : space ∉ a) :
    getText (a ++ space :: b) = b := by
  simp [getText, SplitN_two_append_cons a b space h]

theorem genSplitLoop_ne_nil (sep : Byte) (k : Nat) (s : GoString) : genSplitLoop sep k s ≠ [] := by
  cases k with
  | zero => simp [genSplitLoop]
  | succ k =>
    by_cases h : Index s sep < 0
    · simp [genSplitLoop, h]
    · simp [genSplitLoop, h]

theorem Split_ne_nil (s : GoString) (sep : Byte) : Split s sep ≠ [] := by
  simp only [Split, genSplit]
  exact genSplitLoop_ne_nil sep _ s

/-! ## One write per handler -/

theorem writeStringWithCRLF_eq (w : Conn) (s : GoString) :
    writeStringWithCRLF w s =
      (w.writeResults.headD none,
        ⟨w.writeResults.tail, w.trace ++ [Event.write (s ++ CRLF) (w.writeResults.headD none)]⟩) := by
  unfold writeStringWithCRLF Conn.Write
  cases h : w.writeResults.headD none <;> simp [h]

theorem afterWrite_trace (s : SMTPConn) (msg : GoString) :
    (afterWrite s msg).conn.trace =
      s.conn.trace ++ [Event.write (msg ++ CRLF) (s.conn.writeResults.headD none)] := by
  simp [afterWrite, writeStringWithCRLF_eq]

theorem HandleQUIT_eq (s : SMTPConn) (command text : GoString) :
    s.HandleQUIT command text =
      .ok (some ((s.conn.writeResults.headD none).getD (errorsNew (bytes "client issued QUIT command"))))
        (afterWrite s closingMessage) := by
  unfold SMTPConn.HandleQUIT afterWrite
  rw [writeStringWithCRLF_eq]
  cases h : s.conn.writeResults.headD none <;> simp

theorem HandleUnknownCommand_eq (s : SMTPConn) (command text : GoString) :
    s.HandleUnknownCommand command text =
      .ok (s.conn.writeResults.headD none) (afterWrite s (unknownCommandMessage command)) := by
  simp [SMTPConn.HandleUnknownCommand, afterWrite, writeStringWithCRLF_eq]

theorem HandleHELO_bad_sequence (s : SMTPConn) (command text : GoString)
    (h : s.stateTable.From ≠ []) :
    s.HandleHELO command text =
      .ok (s.conn.writeResults.headD none) (afterWrite s badSequenceMessage) := by
  unfold SMTPConn.HandleHELO afterWrite
  rw [writeStringWithCRLF_eq]
  simp [h]

theorem HandleHELO_accepted (s : SMTPConn) (command text : GoString)
    (h : s.stateTable.From = []) :
    s.HandleHELO command text =
      .ok (s.conn.writeResults.headD none)
        (afterWrite { s with ClientDomain := (Split text space).headD [] } statusOKMessage) := by
  unfold SMTPConn.HandleHELO afterWrite
  rw [writeStringWithCRLF_eq]
  cases hw : Split text space with
  | nil => exact absurd hw (Split_ne_nil text space)
  | cons w0 rest => simp [h, writeStringWithCRLF_eq]

/-! ## The dispatcher, branch by branch -/

theorem dispatch_QUIT (s : SMTPConn) (input : GoString) (h : getCommand input = bytes "QUIT") :
    dispatch s input =
      .ok (some (processingError (bytes "QUIT")
            ((s.conn.writeResults.headD none).getD (errorsNew (bytes "client issued QUIT command")))))
        (afterWrite s closingMessage) := by
  simp [dispatch, h, HandleQUIT_eq]

theorem dispatch_HELO_accepted (s : SMTPConn) (input : GoString)
    (h : getCommand input = bytes "HELO") (hF : s.stateTable.From = []) :
    dispatch s input =
      .ok ((s.conn.writeResults.headD none).map (processingError (bytes "HELO")))
        (afterWrite { s with ClientDomain := (Split (getText input) space).headD [] }
          statusOKMessage) := by
  have hne : bytes "HELO" ≠ bytes "QUIT" := by decide
  simp only [dispatch, h, hne, if_false, if_true, HandleHELO_accepted s _ _ hF]
  cases hw : s.conn.writeResults.headD none <;> simp

theorem dispatch_HELO_bad_sequence (s : SMTPConn) (input : GoString)
    (h : getCommand input = bytes "HELO") (hF : s.stateTable.From ≠ []) :
    dispatch s input =
      .ok ((s.conn.writeResults.headD none).map (processingError (bytes "HELO")))
        (afterWrite s badSequenceMessage) := by
  have hne : bytes "HELO" ≠ bytes "QUIT" := by decide
  simp only [dispatch, h, hne, if_false, if_true, HandleHELO_bad_sequence s _ _ hF]
  cases hw : s.conn.writeResults.headD none <;> simp

theorem dispatch_unknown (s : SMTPConn) (input : GoString)
    (hq : getCommand input ≠ bytes "QUIT") (hh : getCommand input ≠ bytes "HELO") :
    dispatch s input =
      .ok ((s.conn.writeResults.headD none).map (processingError (getCommand input)))
        (afterWrite s (unknownCommandMessage (getCommand input))) := by
  simp only [dispatch, hq, hh, if_false, HandleUnknownCommand_eq]
  cases hw : s.conn.writeResults.headD none <;> simp

/-- Whatever the line, the dispatcher returns, having written one line. -/
theorem dispatch_one_write (s : SMTPConn) (input : GoString) :
    ∃ err msg s1, dispatch s input = .ok err s1 ∧ s1.conn = (afterWrite s msg).conn ∧
      (getCommand input = bytes "QUIT" → msg = closingMessage ∧ err ≠ none) := by
  by_cases hq : getCommand input = bytes "QUIT"
  · exact ⟨_, closingMessage, _, dispatch_QUIT s input hq, rfl, fun _ => ⟨rfl, by simp⟩⟩
  · by_cases hh : getCommand input = bytes "HELO"
    · by_cases hF : s.stateTable.From = []
      · exact ⟨_, statusOKMessage, _, dispatch_HELO_accepted s input hh hF, rfl,
          fun e => absurd e hq⟩
      · exact ⟨_, badSequenceMessage, _, dispatch_HELO_bad_sequence s input hh hF, rfl,
          fun e => absurd e hq⟩
    · exact ⟨_, _, _, dispatch_unknown s input hq hh, rfl, fun e => absurd e hq⟩

/-! ## Reading a line -/

theorem ReadLineWithTimeout_fail (s : SMTPConn) (timeout : Nat) (e : GoError) :
    s.ReadLineWithTimeout timeout (.fail e) = .ok ([], some e) (afterRead s timeout (.fail e)) := by
  simp only [SMTPConn.ReadLineWithTimeout, Conn.Read, Conn.SetReadDeadline, afterRead,
    List.append_assoc, List.cons_append, List.nil_append]

theorem ReadLineWithTimeout_data (s : SMTPConn) (timeout : Nat) (chunk : GoString) :
    s.ReadLineWithTimeout timeout (.data chunk) =
      if min chunk.length 1000 < 2 then .panic (afterRead s timeout (.data chunk))
      else .ok (chunk.take (min chunk.length 1000 - 2), none) (afterRead s timeout (.data chunk)) := by
  have htake : ∀ L : Nat, L ≤ chunk.length →
      (chunk.take L ++ (List.replicate 1000 0).drop L).take (L - 2) = chunk.take (L - 2) := by
    intro L hL
    rw [List.take_append_of_le_length (by simp; omega), List.take_take]
    congr 1
    omega
  simp only [SMTPConn.ReadLineWithTimeout, Conn.Read, Conn.SetReadDeadline, afterRead,
    List.length_replicate, List.append_assoc, List.cons_append, List.nil_append]
  split
  · rfl
  · rw [htake _ (Nat.min_le_left _ _)]

/-! ## The command loop -/

theorem loopBody_of_read (s0 s : SMTPConn) (r : ReadOutcome) (input : GoString)
    (h : s0.ReadLineWithTimeout (30 * Second) r = .ok (input, none) s) :
    loopBody s0 r = dispatch s input := by
  simp [loopBody, h]

theorem commandLoop_continue (s0 s1 : SMTPConn) (r : ReadOutcome) (rest : List ReadOutcome)
    (h : loopBody s0 r = .ok none s1) :
    commandLoop (r :: rest) s0 = commandLoop rest s1 := by
  simp [commandLoop, h]

theorem HELO_line (d : GoString) : bytes "HELO " ++ d = bytes "HELO" ++ space :: d := rfl

theorem getCommand_HELO_line (d : GoString) : getCommand (bytes "HELO " ++ d) = bytes "HELO" := by
  rw [HELO_line]
  exact getCommand_append_cons _ _ (by decide)

theorem getText_HELO_line (d : GoString) : getText (bytes "HELO " ++ d) = d := by
  rw [HELO_line]
  exact getText_append_cons _ _ (by decide)

/-! ## The trace of the command loop -/

theorem cons_eq_append_cons {α : Type} (a x : α) (l pre post : List α)
    (h : a :: l = pre ++ x :: post) :
    (pre = [] ∧ a = x ∧ l = post) ∨ ∃ pre1, pre = a :: pre1 ∧ l = pre1 ++ x :: post := by
  cases pre with
  | nil =>
    simp only [List.nil_append, List.cons.injEq] at h
    exact Or.inl ⟨rfl, h.1, h.2⟩
  | cons p pre1 =>
    simp only [List.cons_append, List.cons.injEq] at h
    exact Or.inr ⟨pre1, by rw [h.1], h.2⟩

theorem append_singleton_eq_append_cons {α : Type} (c x : α) (l pre post : List α)
    (h : l ++ [c] = pre ++ x :: post) (hx : x ≠ c) :
    ∃ post1, post = post1 ++ [c] ∧ l = pre ++ x :: post1 := by
  rcases List.eq_nil_or_concat post with hp | ⟨post1, c1, hp⟩
  · subst hp
    have h2 : l ++ [c] = pre ++ [x] := h
    have := List.append_inj_right' h2 rfl
    simp only [List.cons.injEq, and_true] at this
    exact absurd this.symm hx
  · subst hp
    have h2 : l ++ [c] = (pre ++ x :: post1) ++ [c1] := by
      rw [h]; simp
    have h3 := List.append_inj_right' h2 rfl
    have h4 := List.append_inj_left' h2 rfl
    simp only [List.cons.injEq, and_true] at h3
    exact ⟨post1, by rw [h3]; simp, h4⟩

theorem ReadLineWithTimeout_ok_inv (s0 s1 : SMTPConn) (timeout : Nat) (r : ReadOutcome)
    (input : GoString) (h : s0.ReadLineWithTimeout timeout r = .ok (input, none) s1) :
    ∃ chunk, r = .data chunk ∧ ¬ (min chunk.length 1000 < 2) ∧
      input = chunk.take (min chunk.length 1000 - 2) := by
  cases r with
  | fail e =>
    rw [ReadLineWithTimeout_fail] at h
    simp at h
  | data chunk =>
    rw [ReadLineWithTimeout_data] at h
    by_cases hlen : min chunk.length 1000 < 2
    · rw [if_pos hlen] at h
      simp at h
    · rw [if_neg hlen] at h
      simp only [Result.ok.injEq, Prod.mk.injEq, and_true] at h
      exact ⟨chunk, rfl, hlen, h.1.symm⟩

theorem afterRead_trace (s : SMTPConn) (timeout : Nat) (r : ReadOutcome) :
    (afterRead s timeout r).conn.trace =
      s.conn.trace ++ [Event.setReadDeadline timeout, Event.read r] := rfl

/-- One round of the loop sets the deadline, reads, and then either stops
without writing (the read failed or the slice panicked) or writes one line;
after a line whose verb is QUIT the line written is the closing message and
the loop does not go round again. -/
theorem loopBody_trace (s : SMTPConn) (r : ReadOutcome) :
    ∃ W, (loopBody s r).state.conn.trace =
        s.conn.trace ++ Event.setReadDeadline (30 * Second) :: Event.read r :: W ∧
      ((W = [] ∧ (∀ s1, loopBody s r ≠ .ok none s1) ∧
          ∀ (s0 s1 : SMTPConn) (input : GoString), getCommand input = bytes "QUIT" →
            s0.ReadLineWithTimeout (30 * Second) r ≠ .ok (input, none) s1) ∨
       (∃ b res, W = [Event.write b res] ∧
          ∀ (s0 s1 : SMTPConn) (input : GoString), getCommand input = bytes "QUIT" →
            s0.ReadLineWithTimeout (30 * Second) r = .ok (input, none) s1 →
            b = closingMessage ++ CRLF ∧ ∀ s2, loopBody s r ≠ .ok none s2)) := by
  cases r with
  | fail e =>
    refine ⟨[], ?_, Or.inl ⟨rfl, ?_, ?_⟩⟩
    · simp [loopBody, ReadLineWithTimeout_fail, Result.state, afterRead_trace]
    · intro s1
      simp [loopBody, ReadLineWithTimeout_fail]
    · intro s0 s1 input _
      rw [ReadLineWithTimeout_fail]
      simp
  | data chunk =>
    by_cases hlen : min chunk.length 1000 < 2
    · refine ⟨[], ?_, Or.inl ⟨rfl, ?_, ?_⟩⟩
      · simp [loopBody, ReadLineWithTimeout_data, hlen, Result.state, afterRead_trace]
      · intro s1
        simp [loopBody, ReadLineWithTimeout_data, hlen]
      · intro s0 s1 input _
        rw [ReadLineWithTimeout_data, if_pos hlen]
        simp
    · have hbody : loopBody s (.data chunk) =
          dispatch (afterRead s (30 * Second) (.data chunk))
            (chunk.take (min chunk.length 1000 - 2)) := by
        apply loopBody_of_read
        rw [ReadLineWithTimeout_data, if_neg hlen]
      obtain ⟨err, msg, s1, hd, hconn, hquit⟩ :=
        dispatch_one_write (afterRead s (30 * Second) (.data chunk))
          (chunk.take (min chunk.length 1000 - 2))
      refine ⟨[Event.write (msg ++ CRLF)
          ((afterRead s (30 * Second) (.data chunk)).conn.writeResults.headD none)], ?_,
        Or.inr ⟨_, _, rfl, ?_⟩⟩
      · rw [hbody, hd]
        simp only [Result.state]
        rw [hconn, afterWrite_trace, afterRead_trace]
        simp
      · intro s0 s1' input hq hread
        obtain ⟨chunk1, hc, _, hin⟩ := ReadLineWithTimeout_ok_inv s0 s1' _ _ input hread
        have hcc : chunk = chunk1 := by
          simpa using hc
        subst hcc
        rw [hin] at hq
        obtain ⟨hmsg, herr⟩ := hquit hq
        refine ⟨by rw [hmsg], ?_⟩
        intro s2 h2
        rw [hbody, hd] at h2
        simp only [Result.ok.injEq] at h2
        exact herr h2.1

theorem commandLoop_stop (s : SMTPConn) (r : ReadOutcome) (rest : List ReadOutcome)
    (h : ∀ s1, loopBody s r ≠ .ok none s1) :
    commandLoop (r :: rest) s = loopBody s r := by
  unfold commandLoop
  split
  · rename_i s1 heq
    exact absurd heq (h s1)
  · rfl

theorem stopsAfterQUIT_last_round (r : ReadOutcome) (W : List Event)
    (hW : (W = [] ∧
          ∀ (s0 s1 : SMTPConn) (input : GoString), getCommand input = bytes "QUIT" →
            s0.ReadLineWithTimeout (30 * Second) r ≠ .ok (input, none) s1) ∨
       (∃ b res, W = [Event.write b res] ∧
          ∀ (s0 s1 : SMTPConn) (input : GoString), getCommand input = bytes "QUIT" →
            s0.ReadLineWithTimeout (30 * Second) r = .ok (input, none) s1 →
            b = closingMessage ++ CRLF)) :
    stopsAfterQUIT (Event.setReadDeadline (30 * Second) :: Event.read r :: W) := by
  intro pre post r1 s0 s1 input hsplit hread hq
  rcases cons_eq_append_cons _ _ _ _ _ hsplit with ⟨_, h, _⟩ | ⟨pre1, _, hsplit1⟩
  · cases h
  rcases cons_eq_append_cons _ _ _ _ _ hsplit1 with ⟨_, h, hpost⟩ | ⟨pre2, _, hsplit2⟩
  · cases h
    rcases hW with ⟨_, hno⟩ | ⟨b, res, hWeq, hb⟩
    · exact absurd hread (hno s0 s1 input hq)
    · refine ⟨res, ?_⟩
      rw [← hpost, hWeq, hb s0 s1 input hq hread]
  · rcases hW with ⟨hWeq, _⟩ | ⟨b, res, hWeq, _⟩
    · rw [hWeq] at hsplit2
      simp at hsplit2
    · rw [hWeq] at hsplit2
      rcases cons_eq_append_cons _ _ _ _ _ hsplit2 with ⟨_, h, _⟩ | ⟨pre3, _, hsplit3⟩
      · cases h
      · simp at hsplit3

theorem commandLoop_trace (reads : List ReadOutcome) (s : SMTPConn) :
    ∃ ev, (commandLoop reads s).state.conn.trace = s.conn.trace ++ ev ∧ stopsAfterQUIT ev := by
  induction reads generalizing s with
  | nil =>
    obtain ⟨W, htr, hW⟩ := loopBody_trace s (.fail EOF)
    refine ⟨_, by simpa [commandLoop] using htr, ?_⟩
    apply stopsAfterQUIT_last_round
    rcases hW with ⟨h1, _, h3⟩ | ⟨b, res, h1, h2⟩
    · exact Or.inl ⟨h1, h3⟩
    · exact Or.inr ⟨b, res, h1, fun s0 s1 input hq hr => (h2 s0 s1 input hq hr).1⟩
  | cons r rest ih =>
    obtain ⟨W, htr, hW⟩ := loopBody_trace s r
    by_cases hcont : ∃ s1, loopBody s r = .ok none s1
    · obtain ⟨s1, hs1⟩ := hcont
      obtain ⟨ev, hev, hstop⟩ := ih s1
      rw [hs1] at htr
      simp only [Result.state] at htr
      refine ⟨Event.setReadDeadline (30 * Second) :: Event.read r :: (W ++ ev), ?_, ?_⟩
      · rw [commandLoop_continue s s1 r rest hs1, hev, htr]
        simp
      · rcases hW with ⟨_, hno, _⟩ | ⟨b, res, hWeq, hb⟩
        · exact absurd hs1 (hno s1)
        · subst hWeq
          intro pre post r1 s0 s1' input hsplit hread hq
          rcases cons_eq_append_cons _ _ _ _ _ hsplit with ⟨_, h, _⟩ | ⟨pre1, _, hsplit1⟩
          · cases h
          rcases cons_eq_append_cons _ _ _ _ _ hsplit1 with ⟨_, h, _⟩ | ⟨pre2, _, hsplit2⟩
          · cases h
            exact absurd hs1 ((hb s0 s1' input hq hread).2 s1)
          · rcases cons_eq_append_cons _ _ _ _ _ hsplit2 with ⟨_, h, _⟩ | ⟨pre3, _, hsplit3⟩
            · cases h
            · exact hstop pre3 post r1 s0 s1' input hsplit3 hread hq
    · have hstopLoop : ∀ s1, loopBody s r ≠ .ok none s1 := fun s1 h => hcont ⟨s1, h⟩
      refine ⟨_, by rw [commandLoop_stop s r rest hstopLoop]; exact htr, ?_⟩
      apply stopsAfterQUIT_last_round
      rcases hW with ⟨h1, _, h3⟩ | ⟨b, res, h1, h2⟩
      · exact Or.inl ⟨h1, h3⟩
      · exact Or.inr ⟨b, res, h1, fun s0 s1 input hq hr => (h2 s0 s1 input hq hr).1⟩

theorem handleConnection_conn (srv : Server) (conn : Conn) (reads : List ReadOutcome) :
    (srv.handleConnection conn reads).2 =
      (commandLoop reads
        (NewSMTPConn (writeStringWithCRLF conn srv.getWelcomeMessage).2)).state.conn.Close := by
  unfold Server.handleConnection
  cases h : commandLoop reads (NewSMTPConn (writeStringWithCRLF conn srv.getWelcomeMessage).2) <;>
    simp [h, Result.state]

/-- The trace of a whole call: the greeting, the events of the loop, the close. -/
theorem handleConnection_trace (srv : Server) (conn : Conn) (reads : List ReadOutcome) :
    ∃ ev, (srv.handleConnection conn reads).2.trace =
        conn.trace ++
          Event.write (srv.getWelcomeMessage ++ CRLF) (conn.writeResults.headD none) ::
            (ev ++ [Event.close]) ∧
      stopsAfterQUIT ev := by
  obtain ⟨ev, hev, hstop⟩ := commandLoop_trace reads
    (NewSMTPConn (writeStringWithCRLF conn srv.getWelcomeMessage).2)
  refine ⟨ev, ?_, hstop⟩
  rw [handleConnection_conn]
  simp only [Conn.Close]
  rw [hev]
  simp [NewSMTPConn, writeStringWithCRLF_eq]

/-! ## The first word of a split -/

theorem beforeFirstSpace_cons_of_ne (x : Byte) (xs : GoString) (hx : x ≠ space) :
    beforeFirstSpace (x :: xs) = x :: beforeFirstSpace xs := by
  unfold beforeFirstSpace
  exact List.takeWhile_cons_of_pos (by simpa using hx)

theorem beforeFirstSpace_cons_space (xs : GoString) : beforeFirstSpace (space :: xs) = [] := by
  unfold beforeFirstSpace
  exact List.takeWhile_cons_of_neg (by simp)

theorem beforeFirstSpace_of_not_mem (text : GoString) (h : space ∉ text) :
    beforeFirstSpace text = text := by
  induction text with
  | nil => rfl
  | cons x xs ih =>
    have hx : x ≠ space := fun e => h (by simp [e])
    have hxs : space ∉ xs := fun e => h (by simp [e])
    rw [beforeFirstSpace_cons_of_ne x xs hx, ih hxs]

theorem beforeFirstSpace_append_cons (a b : GoString) (h : space ∉ a) :
    beforeFirstSpace (a ++ space :: b) = a := by
  induction a with
  | nil => exact beforeFirstSpace_cons_space b
  | cons x xs ih =>
    have hx : x ≠ space := fun e => h (by simp [e])
    have hxs : space ∉ xs := fun e => h (by simp [e])
    rw [List.cons_append, beforeFirstSpace_cons_of_ne x _ hx, ih hxs]

theorem space_not_mem_beforeFirstSpace (text : GoString) : space ∉ beforeFirstSpace text := by
  induction text with
  | nil => simp [beforeFirstSpace]
  | cons x xs ih =>
    by_cases hx : x = space
    · rw [hx, beforeFirstSpace_cons_space]
      simp
    · rw [beforeFirstSpace_cons_of_ne x xs hx]
      intro hm
      rcases List.mem_cons.mp hm with e | e
      · exact hx e.symm
      · exact ih e

theorem Split_append_cons (a b : GoString) (sep : Byte) (h : sep ∉ a) :
    ∃ rest, Split (a ++ sep :: b) sep = a :: rest := by
  have hcount : 1 ≤ Count (a ++ sep :: b) sep := by
    simp only [Count, List.count_append, List.count_cons_self]
    omega
  have hI := Index_append_cons a b sep h
  have hlen : 1 ≤ (a ++ sep :: b).length := by
    rw [List.length_append, List.length_cons]
    omega
  obtain ⟨k, hk⟩ : ∃ k,
      (if Count (a ++ sep :: b) sep + 1 > (a ++ sep :: b).length + 1
        then (a ++ sep :: b).length + 1 else Count (a ++ sep :: b) sep + 1) - 1 = k + 1 := by
    split
    · exact ⟨(a ++ sep :: b).length - 1, by omega⟩
    · exact ⟨Count (a ++ sep :: b) sep - 1, by omega⟩
  have hsplit : Split (a ++ sep :: b) sep =
      genSplitLoop sep
        ((if Count (a ++ sep :: b) sep + 1 > (a ++ sep :: b).length + 1
          then (a ++ sep :: b).length + 1 else Count (a ++ sep :: b) sep + 1) - 1)
        (a ++ sep :: b) := rfl
  refine ⟨genSplitLoop sep k ((a ++ sep :: b).drop (a.length + 1)), ?_⟩
  rw [hsplit, hk]
  simp [genSplitLoop, hI]

theorem Split_head (text : GoString) : (Split text space).headD [] = beforeFirstSpace text := by
  by_cases h : space ∈ text
  · obtain ⟨a, b, hab, ha⟩ := exists_first_sep text space h
    obtain ⟨rest, hrest⟩ := Split_append_cons a b space ha
    rw [hab, hrest, beforeFirstSpace_append_cons a b ha]
    rfl
  · rw [Split_of_not_mem text space h, beforeFirstSpace_of_not_mem text h]
    rfl

theorem getCommand_eq_beforeFirstSpace (line : GoString) :
    getCommand line = beforeFirstSpace line := by
  by_cases h : space ∈ line
  · obtain ⟨a, b, hab, ha⟩ := exists_first_sep line space h
    rw [hab, getCommand_append_cons a b ha, beforeFirstSpace_append_cons a b ha]
  · rw [getCommand_of_not_mem line h, beforeFirstSpace_of_not_mem line h]

/-! ## The claims -/

set_option maxRecDepth 100000 in
/-- C1 (counterexample): a fresh session that receives `HELO a.com` and then
`HELO b.com` answers the second line with `250 OK`, not with
`503 bad sequence of commands`, and its ClientDomain is then `b.com`, not
`a.com`. -/
theorem second_HELO_not_rejected :
    (commandLoop [.data (bytes "HELO a.com\r\n"), .data (bytes "HELO b.com\r\n")]
        (NewSMTPConn ⟨[], []⟩)).state =
      { conn := ⟨[],
          [Event.setReadDeadline 30000000000, Event.read (.data (bytes "HELO a.com\r\n")),
           Event.write (bytes "250 OK\r\n") none,
           Event.setReadDeadline 30000000000, Event.read (.data (bytes "HELO b.com\r\n")),
           Event.write (bytes "250 OK\r\n") none,
           Event.setReadDeadline 30000000000, Event.read (.fail EOF)]⟩,
        ClientDomain := bytes "b.com",
        stateTable := StateTable.zero } ∧
    bytes "250 OK\r\n" ≠ bytes "503 bad sequence of commands\r\n" ∧
    bytes "b.com" ≠ bytes "a.com" := by
  decide

/-- C1 (amended): in a fresh session that receives the line `HELO a` and then
the line `HELO b` (a, b without a space, the first answer written
successfully), the response written for the second line is exactly `250 OK`
followed by CRLF, and ClientDomain after the second line equals b. -/
theorem second_HELO_accepted (a b : GoString) (conn : Conn)
    (ha : space ∉ a) (hb : space ∉ b) (hw : conn.writeResults.headD none = none) :
    ∃ s1 err s2,
      dispatch (NewSMTPConn conn) (bytes "HELO " ++ a) = .ok none s1 ∧
      s1.ClientDomain = a ∧
      dispatch s1 (bytes "HELO " ++ b) = .ok err s2 ∧
      s2.conn.trace =
        s1.conn.trace ++ [Event.write (bytes "250 OK\r\n") (s1.conn.writeResults.headD none)] ∧
      s2.ClientDomain = b := by
  have h1 := dispatch_HELO_accepted (NewSMTPConn conn) (bytes "HELO " ++ a)
    (getCommand_HELO_line a) rfl
  rw [getText_HELO_line, Split_of_not_mem a space ha] at h1
  have hw1 : (NewSMTPConn conn).conn.writeResults.headD none = none := hw
  rw [hw1] at h1
  refine ⟨_, _, _, h1, rfl,
    dispatch_HELO_accepted _ (bytes "HELO " ++ b) (getCommand_HELO_line b) rfl, ?_, ?_⟩
  · rw [afterWrite_trace]
    rfl
  · simp [afterWrite, getText_HELO_line, Split_of_not_mem b space hb]

/-- Witness of `second_HELO_accepted` at a = `a.com`, b = `b.com`. -/
theorem second_HELO_accepted_witness :
    ∃ s1 err s2,
      dispatch (NewSMTPConn ⟨[], []⟩) (bytes "HELO " ++ bytes "a.com") = .ok none s1 ∧
      s1.ClientDomain = bytes "a.com" ∧
      dispatch s1 (bytes "HELO " ++ bytes "b.com") = .ok err s2 ∧
      s2.conn.trace =
        s1.conn.trace ++ [Event.write (bytes "250 OK\r\n") (s1.conn.writeResults.headD none)] ∧
      s2.ClientDomain = bytes "b.com" :=
  second_HELO_accepted (bytes "a.com") (bytes "b.com") ⟨[], []⟩ (by decide) (by decide) rfl

/-- C2: for every domain d without a space, when the first line of a fresh
session is `HELO d`, the bytes written in response are exactly `250 OK`
followed by CRLF, and ClientDomain afterwards equals d. -/
theorem first_HELO_answered_OK (d : GoString) (conn : Conn) (hd : space ∉ d) :
    ∃ err s1,
      dispatch (NewSMTPConn conn) (bytes "HELO " ++ d) = .ok err s1 ∧
      s1.conn.trace =
        conn.trace ++ [Event.write (bytes "250 OK\r\n") (conn.writeResults.headD none)] ∧
      s1.ClientDomain = d := by
  refine ⟨_, _, dispatch_HELO_accepted (NewSMTPConn conn) (bytes "HELO " ++ d)
    (getCommand_HELO_line d) rfl, ?_, ?_⟩
  · rw [afterWrite_trace]
    rfl
  · simp [afterWrite, getText_HELO_line, Split_of_not_mem d space hd]

/-- Witness of `first_HELO_answered_OK` at d = `example.com`. -/
theorem first_HELO_answered_OK_witness :
    ∃ err s1,
      dispatch (NewSMTPConn ⟨[], []⟩) (bytes "HELO " ++ bytes "example.com") = .ok err s1 ∧
      s1.conn.trace = [] ++ [Event.write (bytes "250 OK\r\n") none] ∧
      s1.ClientDomain = bytes "example.com" :=
  first_HELO_answered_OK (bytes "example.com") ⟨[], []⟩ (by decide)

/-- C3 (the code at the failing input): the line `helo` has no space; its
parsed verb is `helo` itself, not the uppercase `HELO` that `normalizeCommand`
would give, and its text is empty. -/
theorem verb_not_uppercased (mapUpper : GoString → GoString) :
    getCommand (bytes "helo") = bytes "helo" ∧
    getText (bytes "helo") = [] ∧
    normalizeCommand mapUpper (bytes "helo") = bytes "HELO" ∧
    getCommand (bytes "helo") ≠ normalizeCommand mapUpper (bytes "helo") := by
  have h1 : getCommand (bytes "helo") = bytes "helo" := by decide
  have h2 : getText (bytes "helo") = [] := by decide
  have h3 : normalizeCommand mapUpper (bytes "helo") = bytes "HELO" := rfl
  refine ⟨h1, h2, h3, ?_⟩
  rw [h1, h3]
  decide

/-- C4: a line with a space splits at its first space: `getCommand` is the
part before it (and holds no space), `getText` the part after it, so that
`getCommand line ++ " " ++ getText line = line`; a line with no space has an
empty text. -/
theorem line_splits_at_first_space (line : GoString) :
    (space ∈ line →
      (∃ a b, line = a ++ space :: b ∧ space ∉ a ∧ getCommand line = a ∧ getText line = b) ∧
      space ∉ getCommand line ∧
      getCommand line ++ bytes " " ++ getText line = line) ∧
    (space ∉ line → getText line = []) := by
  refine ⟨fun h => ?_, getText_of_not_mem line⟩
  obtain ⟨a, b, hab, ha⟩ := exists_first_sep line space h
  have hc : getCommand line = a := by rw [hab]; exact getCommand_append_cons a b ha
  have ht : getText line = b := by rw [hab]; exact getText_append_cons a b ha
  refine ⟨⟨a, b, hab, ha, hc, ht⟩, by rw [hc]; exact ha, ?_⟩
  rw [hc, ht, hab]
  show a ++ [space] ++ b = a ++ space :: b
  simp

/-- Witness of `line_splits_at_first_space` at the lines `HELO a b` and `QUIT`. -/
theorem line_splits_at_first_space_witness :
    ((∃ a b, bytes "HELO a b" = a ++ space :: b ∧ space ∉ a ∧
        getCommand (bytes "HELO a b") = a ∧ getText (bytes "HELO a b") = b) ∧
      space ∉ getCommand (bytes "HELO a b") ∧
      getCommand (bytes "HELO a b") ++ bytes " " ++ getText (bytes "HELO a b") = bytes "HELO a b") ∧
    getText (bytes "QUIT") = [] :=
  ⟨(line_splits_at_first_space (bytes "HELO a b")).1 (by decide),
   (line_splits_at_first_space (bytes "QUIT")).2 (by decide)⟩

/-- C5: for every input line whose verb is neither QUIT nor HELO, the verb
being the part of the line before its first space, the dispatcher writes
exactly the line `500 unknown command: "<verb>"` followed by CRLF, leaves
ClientDomain and the state table unchanged, and, when that write succeeds,
reports no error, so that the loop goes on with the next read.  The empty
line, whose verb and text are both empty, is such a line. -/
theorem unknown_command_answered (s : SMTPConn) (input : GoString)
    (hq : getCommand input ≠ bytes "QUIT") (hh : getCommand input ≠ bytes "HELO") :
    (getCommand input = beforeFirstSpace input ∧
     ∃ err s1,
      dispatch s input = .ok err s1 ∧
      s1.conn.trace =
        s.conn.trace ++
          [Event.write
            (bytes "500 unknown command: \"" ++ beforeFirstSpace input ++ bytes "\"\r\n")
            (s.conn.writeResults.headD none)] ∧
      s1.ClientDomain = s.ClientDomain ∧
      s1.stateTable = s.stateTable ∧
      (s.conn.writeResults.headD none = none →
        err = none ∧
        ∀ (s0 : SMTPConn) (r : ReadOutcome) (rest : List ReadOutcome),
          s0.ReadLineWithTimeout (30 * Second) r = .ok (input, none) s →
          commandLoop (r :: rest) s0 = commandLoop rest s1)) ∧
    (getCommand [] = [] ∧ getText [] = [] ∧
      getCommand [] ≠ bytes "QUIT" ∧ getCommand [] ≠ bytes "HELO") := by
  refine ⟨⟨getCommand_eq_beforeFirstSpace input, _, _, dispatch_unknown s input hq hh, ?_,
    rfl, rfl, ?_⟩, by decide⟩
  · rw [afterWrite_trace, ← getCommand_eq_beforeFirstSpace input]
    simp only [unknownCommandMessage, CRLF, List.append_assoc]
    rfl
  · intro hw
    refine ⟨by rw [hw]; rfl, ?_⟩
    intro s0 r rest hread
    apply commandLoop_continue
    rw [loopBody_of_read s0 s r input hread, dispatch_unknown s input hq hh, hw]
    rfl

set_option maxRecDepth 100000 in
/-- Witness of `unknown_command_answered`: a fresh session reads `FOO bar`.
The state is the one `ReadLineWithTimeout` leaves; the answer written is
`500 unknown command: "FOO"` followed by CRLF, and the loop goes on to the
pending read of `QUIT`, whose closing message it writes next. -/
theorem unknown_command_answered_witness :
    (NewSMTPConn ⟨[], []⟩).ReadLineWithTimeout (30 * Second) (.data (bytes "FOO bar\r\n")) =
      .ok (bytes "FOO bar", none)
        (afterRead (NewSMTPConn ⟨[], []⟩) (30 * Second) (.data (bytes "FOO bar\r\n"))) ∧
    getCommand (bytes "FOO bar") = bytes "FOO" ∧
    ∃ s1,
      dispatch (afterRead (NewSMTPConn ⟨[], []⟩) (30 * Second) (.data (bytes "FOO bar\r\n")))
        (bytes "FOO bar") = .ok none s1 ∧
      s1.conn.trace =
        [Event.setReadDeadline (30 * Second), Event.read (.data (bytes "FOO bar\r\n")),
          Event.write (bytes "500 unknown command: \"FOO\"\r\n") none] ∧
      s1.ClientDomain = [] ∧
      s1.stateTable = StateTable.zero ∧
      commandLoop [.data (bytes "FOO bar\r\n"), .data (bytes "QUIT\r\n")] (NewSMTPConn ⟨[], []⟩) =
        commandLoop [.data (bytes "QUIT\r\n")] s1 ∧
      (commandLoop [.data (bytes "FOO bar\r\n"), .data (bytes "QUIT\r\n")]
          (NewSMTPConn ⟨[], []⟩)).state.conn.trace =
        [Event.setReadDeadline (30 * Second), Event.read (.data (bytes "FOO bar\r\n")),
          Event.write (bytes "500 unknown command: \"FOO\"\r\n") none,
          Event.setReadDeadline (30 * Second), Event.read (.data (bytes "QUIT\r\n")),
          Event.write (closingMessage ++ CRLF) none] := by
  have hread : (NewSMTPConn ⟨[], []⟩).ReadLineWithTimeout (30 * Second)
      (.data (bytes "FOO bar\r\n")) =
      .ok (bytes "FOO bar", none)
        (afterRead (NewSMTPConn ⟨[], []⟩) (30 * Second) (.data (bytes "FOO bar\r\n"))) := by
    decide
  obtain ⟨⟨hverb, err, s1, hd, htr, hcd, hst, hcont⟩, _⟩ :=
    unknown_command_answered
      (afterRead (NewSMTPConn ⟨[], []⟩) (30 * Second) (.data (bytes "FOO bar\r\n")))
      (bytes "FOO bar") (by decide) (by decide)
  obtain ⟨herr, hloop⟩ := hcont rfl
  have hgo := hloop (NewSMTPConn ⟨[], []⟩) (.data (bytes "FOO bar\r\n"))
    [.data (bytes "QUIT\r\n")] hread
  subst herr
  have hs1 : s1 =
      ⟨⟨[], [Event.setReadDeadline (30 * Second), Event.read (.data (bytes "FOO bar\r\n")),
          Event.write (bytes "500 unknown command: \"FOO\"\r\n") none]⟩, [],
        StateTable.zero⟩ := by
    have hd2 : dispatch
        (afterRead (NewSMTPConn ⟨[], []⟩) (30 * Second) (.data (bytes "FOO bar\r\n")))
        (bytes "FOO bar") =
        .ok none
          ⟨⟨[], [Event.setReadDeadline (30 * Second), Event.read (.data (bytes "FOO bar\r\n")),
              Event.write (bytes "500 unknown command: \"FOO\"\r\n") none]⟩, [],
            StateTable.zero⟩ := by
      decide
    rw [hd2] at hd
    simp only [Result.ok.injEq, true_and] at hd
    exact hd.symm
  refine ⟨hread, by rw [hverb]; decide, s1, hd, ?_, ?_, ?_, hgo, ?_⟩
  · rw [htr]
    decide
  · rw [hcd]
    rfl
  · rw [hst]
    rfl
  · rw [hgo, hs1]
    decide

/-- C7 (counterexample): `ClearState` on a session whose client domain is
`a.com` leaves the client domain `a.com`, which is not empty. -/
theorem ClearState_keeps_ClientDomain :
    ((⟨⟨[], []⟩, bytes "a.com", ⟨bytes "x@a.com", [bytes "y@b.com"], bytes "hi"⟩⟩ :
        SMTPConn).ClearState).2.ClientDomain = bytes "a.com" ∧
    bytes "a.com" ≠ [] := by
  decide

/-- C7 (amended): for every session state, after `ClearState` returns, the
three fields of the state table are at their defaults (From empty, To empty,
Data empty), the client domain is what it was, and `ClearState` returns no
error. -/
theorem ClearState_resets_stateTable (s : SMTPConn) :
    (s.ClearState).1 = none ∧
    (s.ClearState).2.stateTable.From = [] ∧
    (s.ClearState).2.stateTable.To = [] ∧
    (s.ClearState).2.stateTable.Data = [] ∧
    (s.ClearState).2.ClientDomain = s.ClientDomain := by
  simp [SMTPConn.ClearState, StateTable.Clear]

/-- C8: for every session state whose From is non-empty and every argument
text, `HandleHELO` writes exactly `503 bad sequence of commands` followed by
CRLF and does nothing else: ClientDomain, From, To and Data are unchanged, and
the error returned is the result of that one write. -/
theorem HELO_in_transaction_rejected (s : SMTPConn) (command text : GoString)
    (h : s.stateTable.From ≠ []) :
    ∃ s1,
      s.HandleHELO command text = .ok (s.conn.writeResults.headD none) s1 ∧
      s1.conn.trace =
        s.conn.trace ++
          [Event.write (bytes "503 bad sequence of commands\r\n")
            (s.conn.writeResults.headD none)] ∧
      s1.ClientDomain = s.ClientDomain ∧
      s1.stateTable.From = s.stateTable.From ∧
      s1.stateTable.To = s.stateTable.To ∧
      s1.stateTable.Data = s.stateTable.Data := by
  refine ⟨_, HandleHELO_bad_sequence s command text h, ?_, rfl, rfl, rfl, rfl⟩
  rw [afterWrite_trace]
  rfl

/-- Witness of `HELO_in_transaction_rejected` at a session with From = `x@a.com`. -/
theorem HELO_in_transaction_rejected_witness :
    ∃ s1,
      (⟨⟨[], []⟩, bytes "a.com", ⟨bytes "x@a.com", [], []⟩⟩ : SMTPConn).HandleHELO
          (bytes "HELO") (bytes "b.com") = .ok none s1 ∧
      s1.conn.trace = [Event.write (bytes "503 bad sequence of commands\r\n") none] ∧
      s1.ClientDomain = bytes "a.com" ∧
      s1.stateTable.From = bytes "x@a.com" ∧
      s1.stateTable.To = [] ∧
      s1.stateTable.Data = [] :=
  HELO_in_transaction_rejected ⟨⟨[], []⟩, bytes "a.com", ⟨bytes "x@a.com", [], []⟩⟩
    (bytes "HELO") (bytes "b.com") (by decide)

/-- C9 (the code at the failing input): the line `helo example.com` is
answered `500 unknown command: "helo"` and stores no client domain, and the
line `quit` is answered `500 unknown command: "quit"` with no error, while
`HELO example.com` is answered `250 OK` and `QUIT` ends the loop, although
the verbs have the same uppercase form. -/
theorem lowercase_verb_not_routed (mapUpper : GoString → GoString) :
    dispatch (NewSMTPConn ⟨[], []⟩) (bytes "helo example.com") =
      .ok none ⟨⟨[], [Event.write (bytes "500 unknown command: \"helo\"\r\n") none]⟩, [],
        StateTable.zero⟩ ∧
    dispatch (NewSMTPConn ⟨[], []⟩) (bytes "HELO example.com") =
      .ok none ⟨⟨[], [Event.write (bytes "250 OK\r\n") none]⟩, bytes "example.com",
        StateTable.zero⟩ ∧
    normalizeCommand mapUpper (getCommand (bytes "helo example.com")) =
      normalizeCommand mapUpper (getCommand (bytes "HELO example.com")) ∧
    dispatch (NewSMTPConn ⟨[], []⟩) (bytes "quit") =
      .ok none ⟨⟨[], [Event.write (bytes "500 unknown command: \"quit\"\r\n") none]⟩, [],
        StateTable.zero⟩ ∧
    dispatch (NewSMTPConn ⟨[], []⟩) (bytes "QUIT") =
      .ok (some (processingError (bytes "QUIT") (errorsNew (bytes "client issued QUIT command"))))
        ⟨⟨[], [Event.write (closingMessage ++ CRLF) none]⟩, [], StateTable.zero⟩ ∧
    normalizeCommand mapUpper (getCommand (bytes "quit")) =
      normalizeCommand mapUpper (getCommand (bytes "QUIT")) := by
  refine ⟨by decide, by decide, ?_, by decide, by decide, ?_⟩
  · have h1 : getCommand (bytes "helo example.com") = bytes "helo" := by decide
    have h2 : getCommand (bytes "HELO example.com") = bytes "HELO" := by decide
    rw [h1, h2]
    rfl
  · have h1 : getCommand (bytes "quit") = bytes "quit" := by decide
    have h2 : getCommand (bytes "QUIT") = bytes "QUIT" := by decide
    rw [h1, h2]
    rfl

/-- C6: in every session on a new connection, once a line whose verb is QUIT
has been read, the rest of the trace of the connection is the write of the
closing message followed by CRLF and then the close: the loop has ended, and
no further read and no further write is made, whatever reads were still
pending. -/
theorem nothing_after_QUIT (srv : Server) (writeResults : List (Option GoError))
    (reads : List ReadOutcome) (pre post : List Event) (r : ReadOutcome)
    (s0 s1 : SMTPConn) (input : GoString)
    (htrace : (srv.handleConnection ⟨writeResults, []⟩ reads).2.trace =
      pre ++ Event.read r :: post)
    (hread : s0.ReadLineWithTimeout (30 * Second) r = .ok (input, none) s1)
    (hq : getCommand input = bytes "QUIT") :
    ∃ res, post = [Event.write (closingMessage ++ CRLF) res, Event.close] := by
  obtain ⟨ev, hev, hstop⟩ := handleConnection_trace srv ⟨writeResults, []⟩ reads
  rw [htrace] at hev
  simp only [List.nil_append] at hev
  rcases cons_eq_append_cons _ _ _ _ _ hev.symm with ⟨_, h, _⟩ | ⟨pre1, _, hsplit⟩
  · cases h
  · obtain ⟨post1, hpost, hev1⟩ :=
      append_singleton_eq_append_cons _ _ _ _ _ hsplit (by simp)
    obtain ⟨res, hres⟩ := hstop pre1 post1 r s0 s1 input hev1 hread hq
    exact ⟨res, by rw [hpost, hres]; rfl⟩

set_option maxRecDepth 100000 in
/-- Witness of `nothing_after_QUIT`: a session whose first line is `QUIT`,
with a further line pending that is never read. -/
theorem nothing_after_QUIT_witness :
    (Server.handleConnection ⟨8000, bytes "localhost"⟩ ⟨[], []⟩
        [.data (bytes "QUIT\r\n"), .data (bytes "HELO b.com\r\n")]).2.trace =
      [Event.write (welcomeMessage (bytes "localhost") ++ CRLF) none,
        Event.setReadDeadline (30 * Second)] ++
        Event.read (.data (bytes "QUIT\r\n")) ::
          [Event.write (closingMessage ++ CRLF) none, Event.close] ∧
    ∃ res, [Event.write (closingMessage ++ CRLF) none, Event.close] =
      [Event.write (closingMessage ++ CRLF) res, Event.close] :=
  ⟨by decide,
   nothing_after_QUIT ⟨8000, bytes "localhost"⟩ [] 
    [.data (bytes "QUIT\r\n"), .data (bytes "HELO b.com\r\n")]
    [Event.write (welcomeMessage (bytes "localhost") ++ CRLF) none,
      Event.setReadDeadline (30 * Second)]
    [Event.write (closingMessage ++ CRLF) none, Event.close]
    (.data (bytes "QUIT\r\n")) (NewSMTPConn ⟨[], []⟩)
    (afterRead (NewSMTPConn ⟨[], []⟩) (30 * Second) (.data (bytes "QUIT\r\n")))
    (bytes "QUIT") (by decide) (by decide) (by decide)⟩

/-- C10: for every configured domain, every connection and every client
behaviour, the first call `handleConnection` makes on the connection is one
write of the greeting line: `220 `, the configured Domain, a space, the banner
text, and CRLF. -/
theorem greeting_written_first (srv : Server) (conn : Conn) (reads : List ReadOutcome) :
    ∃ rest, (srv.handleConnection conn reads).2.trace =
      conn.trace ++
        Event.write
          (bytes "220 " ++ srv.Domain ++ bytes " " ++
            bytes "nikochiko/smtp-go server 0.0.1 welcomes you 🙏" ++ bytes "\r\n")
          (conn.writeResults.headD none) :: rest := by
  obtain ⟨ev, hev, _⟩ := handleConnection_trace srv conn reads
  refine ⟨ev ++ [Event.close], ?_⟩
  rw [hev]
  have hmsg : srv.getWelcomeMessage ++ CRLF =
      bytes "220 " ++ srv.Domain ++ bytes " " ++
        bytes "nikochiko/smtp-go server 0.0.1 welcomes you 🙏" ++ bytes "\r\n" := by
    simp only [Server.getWelcomeMessage, welcomeMessage, List.append_assoc]
    rfl
  rw [hmsg]

/-! ## What the dispatcher writes, and the state table -/

theorem dispatch_response (s : SMTPConn) (input : GoString) :
    ∃ err s1, dispatch s input = .ok err s1 ∧
      s1.conn = (afterWrite s (responseText s input)).conn ∧
      s1.stateTable = s.stateTable := by
  by_cases hq : getCommand input = bytes "QUIT"
  · have hr : responseText s input = closingMessage := by
      unfold responseText
      rw [if_pos hq]
    exact ⟨_, _, dispatch_QUIT s input hq, by rw [hr], rfl⟩
  · by_cases hh : getCommand input = bytes "HELO"
    · by_cases hF : s.stateTable.From = []
      · have hr : responseText s input = statusOKMessage := by
          unfold responseText
          rw [if_neg hq, if_pos hh, if_pos hF]
        exact ⟨_, _, dispatch_HELO_accepted s input hh hF, by rw [hr]; rfl, rfl⟩
      · have hr : responseText s input = badSequenceMessage := by
          unfold responseText
          rw [if_neg hq, if_pos hh, if_neg hF]
        exact ⟨_, _, dispatch_HELO_bad_sequence s input hh hF, by rw [hr], rfl⟩
    · have hr : responseText s input = unknownCommandMessage (getCommand input) := by
        unfold responseText
        rw [if_neg hq, if_neg hh]
      exact ⟨_, _, dispatch_unknown s input hq hh, by rw [hr], rfl⟩

theorem loopBody_cases (s : SMTPConn) (r : ReadOutcome) :
    (loopBody s r).state.stateTable = s.stateTable ∧
    ∃ W, (loopBody s r).state.conn.trace =
        s.conn.trace ++ Event.setReadDeadline (30 * Second) :: Event.read r :: W ∧
      (W = [] ∨ ∃ input res, W = [Event.write (responseText s input ++ CRLF) res]) := by
  cases r with
  | fail e =>
    refine ⟨?_, [], ?_, Or.inl rfl⟩
    · simp [loopBody, ReadLineWithTimeout_fail, Result.state, afterRead]
    · simp [loopBody, ReadLineWithTimeout_fail, Result.state, afterRead_trace]
  | data chunk =>
    by_cases hlen : min chunk.length 1000 < 2
    · refine ⟨?_, [], ?_, Or.inl rfl⟩
      · simp [loopBody, ReadLineWithTimeout_data, hlen, Result.state, afterRead]
      · simp [loopBody, ReadLineWithTimeout_data, hlen, Result.state, afterRead_trace]
    · have hbody : loopBody s (.data chunk) =
          dispatch (afterRead s (30 * Second) (.data chunk))
            (chunk.take (min chunk.length 1000 - 2)) := by
        apply loopBody_of_read
        rw [ReadLineWithTimeout_data, if_neg hlen]
      obtain ⟨err, s1, hd, hconn, hst⟩ :=
        dispatch_response (afterRead s (30 * Second) (.data chunk))
          (chunk.take (min chunk.length 1000 - 2))
      refine ⟨?_, [Event.write (responseText s (chunk.take (min chunk.length 1000 - 2)) ++ CRLF)
          (s.conn.writeResults.headD none)], ?_,
        Or.inr ⟨chunk.take (min chunk.length 1000 - 2), _, rfl⟩⟩
      · rw [hbody, hd]
        exact hst
      · rw [hbody, hd]
        simp only [Result.state]
        rw [hconn, afterWrite_trace, afterRead_trace]
        simp [responseText, afterRead]

theorem LoopReachable_stateTable (conn0 : Conn) (s : SMTPConn) (h : LoopReachable conn0 s) :
    s.stateTable = StateTable.zero := by
  induction h with
  | start => rfl
  | round s r _ ih => rw [(loopBody_cases s r).1, ih]

theorem commandLoop_LoopReachable (conn0 : Conn) (reads : List ReadOutcome) (s : SMTPConn)
    (h : LoopReachable conn0 s) : LoopReachable conn0 (commandLoop reads s).state := by
  induction reads generalizing s with
  | nil => exact LoopReachable.round s _ h
  | cons r rest ih =>
    by_cases hcont : ∃ s1, loopBody s r = .ok none s1
    · obtain ⟨s1, hs1⟩ := hcont
      rw [commandLoop_continue s s1 r rest hs1]
      apply ih
      have := LoopReachable.round s r h
      rw [hs1] at this
      exact this
    · rw [commandLoop_stop s r rest (fun s1 e => hcont ⟨s1, e⟩)]
      exact LoopReachable.round s r h

/-- With From empty, no answer of the dispatcher begins with `503`. -/
theorem responseText_not_503 (s : SMTPConn) (input : GoString) (hF : s.stateTable.From = []) :
    (responseText s input ++ CRLF).take 3 ≠ bytes "503" := by
  unfold responseText
  by_cases hq : getCommand input = bytes "QUIT"
  · rw [if_pos hq]
    decide
  · by_cases hh : getCommand input = bytes "HELO"
    · rw [if_neg hq, if_pos hh, if_pos hF]
      decide
    · rw [if_neg hq, if_neg hh]
      have h500 : (unknownCommandMessage (getCommand input) ++ CRLF).take 3 = bytes "500" := rfl
      rw [h500]
      decide

theorem commandLoop_no_503 (reads : List ReadOutcome) (s : SMTPConn)
    (hF : s.stateTable.From = []) :
    ∃ ev, (commandLoop reads s).state.conn.trace = s.conn.trace ++ ev ∧
      ∀ b res, Event.write b res ∈ ev → b.take 3 ≠ bytes "503" := by
  have hround : ∀ (s : SMTPConn) (r : ReadOutcome), s.stateTable.From = [] →
      ∃ ev, (loopBody s r).state.conn.trace = s.conn.trace ++ ev ∧
        ∀ b res, Event.write b res ∈ ev → b.take 3 ≠ bytes "503" := by
    intro s r hF
    obtain ⟨_, W, htr, hW⟩ := loopBody_cases s r
    refine ⟨_, htr, ?_⟩
    intro b res hmem
    rcases hW with hW | ⟨input, res1, hW⟩
    · rw [hW] at hmem
      simp at hmem
    · rw [hW] at hmem
      simp only [List.mem_cons, List.mem_singleton, Event.write.injEq, false_or, reduceCtorEq,
        List.not_mem_nil, or_false] at hmem
      rw [hmem.1]
      exact responseText_not_503 s input hF
  induction reads generalizing s with
  | nil => exact hround s _ hF
  | cons r rest ih =>
    by_cases hcont : ∃ s1, loopBody s r = .ok none s1
    · obtain ⟨s1, hs1⟩ := hcont
      obtain ⟨ev1, htr1, h1⟩ := hround s r hF
      have hst := (loopBody_cases s r).1
      rw [hs1] at htr1 hst
      simp only [Result.state] at htr1 hst
      obtain ⟨ev2, htr2, h2⟩ := ih s1 (by rw [hst]; exact hF)
      refine ⟨ev1 ++ ev2, ?_, ?_⟩
      · rw [commandLoop_continue s s1 r rest hs1, htr2, htr1, List.append_assoc]
      · intro b res hmem
        rcases List.mem_append.mp hmem with hm | hm
        · exact h1 b res hm
        · exact h2 b res hm
    · rw [commandLoop_stop s r rest (fun s1 e => hcont ⟨s1, e⟩)]
      exact hround s r hF

/-! ## The claims on the line transport -/

theorem CRLF_length : CRLF.length = 2 := rfl

/-- C11: whenever the read succeeds and delivers the complete line L followed
by CRLF (it returns the length of `L ++ CRLF` and no error, the buffer
starting with those bytes), `ReadLineWithTimeout` returns exactly L and no
error; and whenever the read fails with error e, it returns the empty string
together with e. -/
theorem ReadLineWithTimeout_returns_line (s : SMTPConn) (timeout : Nat) :
    (∀ (r : ReadOutcome) (L buffer : GoString),
      ((s.conn.SetReadDeadline timeout).Read (List.replicate 1000 0) r).1 =
        (buffer, (L ++ CRLF).length, none) →
      buffer.take (L ++ CRLF).length = L ++ CRLF →
      s.ReadLineWithTimeout timeout r = .ok (L, none) (afterRead s timeout r)) ∧
    (∀ e : GoError,
      s.ReadLineWithTimeout timeout (.fail e) = .ok ([], some e) (afterRead s timeout (.fail e))) := by
  refine ⟨?_, fun e => ReadLineWithTimeout_fail s timeout e⟩
  intro r L buffer hread hbuf
  cases r with
  | fail e => simp only [Conn.Read, Prod.mk.injEq, reduceCtorEq, and_false] at hread
  | data chunk =>
    simp only [Conn.Read, List.length_replicate, Prod.mk.injEq, and_true] at hread
    obtain ⟨hb, hlen⟩ := hread
    have hL : (L ++ CRLF).length = L.length + 2 := by
      rw [List.length_append, CRLF_length]
    have hm : min chunk.length 1000 ≤ chunk.length := Nat.min_le_left _ _
    have htake : chunk.take (min chunk.length 1000) = L ++ CRLF := by
      rw [← hbuf, ← hb, ← hlen]
      rw [List.take_append_of_le_length (by rw [List.length_take]; omega), List.take_take]
      simp
    rw [ReadLineWithTimeout_data, if_neg (by omega)]
    have hline : chunk.take (min chunk.length 1000 - 2) = L := by
      have h1 : chunk.take (min chunk.length 1000 - 2) =
          (chunk.take (min chunk.length 1000)).take (min chunk.length 1000 - 2) := by
        rw [List.take_take]
        congr 1
        omega
      rw [h1, htake, hlen, hL]
      simp
    rw [hline]

set_option maxRecDepth 100000 in
/-- Witness of `ReadLineWithTimeout_returns_line`: the read delivers `HELO a.com` and CRLF. -/
theorem ReadLineWithTimeout_returns_line_witness :
    (NewSMTPConn ⟨[], []⟩).ReadLineWithTimeout (30 * Second) (.data (bytes "HELO a.com\r\n")) =
      .ok (bytes "HELO a.com", none)
        (afterRead (NewSMTPConn ⟨[], []⟩) (30 * Second) (.data (bytes "HELO a.com\r\n"))) :=
  (ReadLineWithTimeout_returns_line (NewSMTPConn ⟨[], []⟩) (30 * Second)).1
    (.data (bytes "HELO a.com\r\n")) (bytes "HELO a.com")
    (bytes "HELO a.com\r\n" ++ List.replicate 988 0) (by decide) (by decide)

set_option maxRecDepth 100000 in
/-- C12 (the code at the failing input): a read that delivers the single byte
`\n`, or no byte at all, makes the slice `buffer[:length-2]` panic, and the
panic ends `handleConnection` (there is no recover). -/
theorem short_read_panics :
    (NewSMTPConn ⟨[], []⟩).ReadLineWithTimeout (30 * Second) (.data (bytes "\n")) =
      .panic (afterRead (NewSMTPConn ⟨[], []⟩) (30 * Second) (.data (bytes "\n"))) ∧
    (NewSMTPConn ⟨[], []⟩).ReadLineWithTimeout (30 * Second) (.data []) =
      .panic (afterRead (NewSMTPConn ⟨[], []⟩) (30 * Second) (.data [])) ∧
    (Server.handleConnection ⟨8000, bytes "localhost"⟩ ⟨[], []⟩
        [.data (bytes "HELO a.com\r\n"), .data (bytes "\n")]).1 = Exit.panicked := by
  decide

/-! ## The claims on the handlers -/

/-- C13: for every session state and every input line, dispatching the line
makes exactly one write on the connection, and the bytes written are the
answer of the branch taken (closing message for QUIT, `250 OK` or the
bad-sequence message for HELO, the unknown-command message otherwise) followed
by CRLF. -/
theorem dispatch_writes_once (s : SMTPConn) (input : GoString) :
    ∃ err s1, dispatch s input = .ok err s1 ∧
      s1.conn.trace =
        s.conn.trace ++
          [Event.write (responseText s input ++ CRLF) (s.conn.writeResults.headD none)] ∧
      s1.conn.writeResults = s.conn.writeResults.tail ∧
      responseText s input ∈
        [closingMessage, statusOKMessage, badSequenceMessage,
          unknownCommandMessage (getCommand input)] := by
  obtain ⟨err, s1, hd, hconn, _⟩ := dispatch_response s input
  refine ⟨err, s1, hd, ?_, ?_, ?_⟩
  · rw [hconn, afterWrite_trace]
  · rw [hconn]
    simp [afterWrite, writeStringWithCRLF_eq]
  · unfold responseText
    by_cases hq : getCommand input = bytes "QUIT"
    · simp [hq]
    · by_cases hh : getCommand input = bytes "HELO"
      · by_cases hF : s.stateTable.From = []
        · rw [if_neg hq, if_pos hh, if_pos hF]
          simp
        · rw [if_neg hq, if_pos hh, if_neg hF]
          simp
      · rw [if_neg hq, if_neg hh]
        simp

/-- C14 (counterexample): in a fresh session whose write succeeds, `HandleQUIT`
returns the error `client issued QUIT command`, not nil. -/
theorem HandleQUIT_returns_error :
    (NewSMTPConn ⟨[], []⟩).HandleQUIT (bytes "QUIT") [] =
      .ok (some ⟨bytes "client issued QUIT command"⟩)
        ⟨⟨[], [Event.write (closingMessage ++ CRLF) none]⟩, [], StateTable.zero⟩ ∧
    ((NewSMTPConn ⟨[], []⟩).HandleQUIT (bytes "QUIT") []).value? ≠ some none := by
  decide

/-- C14 (amended): whenever the closing response is written successfully,
`HandleQUIT` reports the end of the session through a non-nil error, the error
whose text is `client issued QUIT command`. -/
theorem HandleQUIT_signals_by_error (s : SMTPConn) (command text : GoString)
    (hw : s.conn.writeResults.headD none = none) :
    s.HandleQUIT command text =
      .ok (some (errorsNew (bytes "client issued QUIT command"))) (afterWrite s closingMessage) ∧
    (s.HandleQUIT command text).value? ≠ some none := by
  have h := HandleQUIT_eq s command text
  rw [hw] at h
  rw [h]
  exact ⟨rfl, by simp [Result.value?]⟩

/-- Witness of `HandleQUIT_signals_by_error` in a fresh session. -/
theorem HandleQUIT_signals_by_error_witness :
    (NewSMTPConn ⟨[], []⟩).HandleQUIT (bytes "QUIT") [] =
      .ok (some (errorsNew (bytes "client issued QUIT command")))
        (afterWrite (NewSMTPConn ⟨[], []⟩) closingMessage) ∧
    ((NewSMTPConn ⟨[], []⟩).HandleQUIT (bytes "QUIT") []).value? ≠ some none :=
  HandleQUIT_signals_by_error (NewSMTPConn ⟨[], []⟩) (bytes "QUIT") [] rfl

set_option maxRecDepth 100000 in
/-- C15 (the code at the failing input): in a session whose first read fails
with `i/o timeout`, the loop builds the error `error while reading input from
client: i/o timeout` in its own variable, and `handleConnection` returns nil. -/
theorem read_failure_returns_nil :
    Server.handleConnection ⟨8000, bytes "localhost"⟩ ⟨[], []⟩ [.fail ⟨bytes "i/o timeout"⟩] =
      (Exit.returned none,
        ⟨[], [Event.write (welcomeMessage (bytes "localhost") ++ CRLF) none,
              Event.setReadDeadline (30 * Second),
              Event.read (.fail ⟨bytes "i/o timeout"⟩),
              Event.close]⟩) ∧
    (commandLoop [.fail ⟨bytes "i/o timeout"⟩] (NewSMTPConn ⟨[], []⟩)).value? =
      some (some ⟨bytes "error while reading input from client: i/o timeout"⟩) := by
  decide

/-- C16 (counterexample): with the text ` example.com` (a leading space)
`HandleHELO` stores the empty string, and with the text `a<TAB>b` it stores
`a<TAB>b`, while the first whitespace-delimited tokens are `example.com` and
`a`. -/
theorem HELO_domain_not_first_token :
    ((NewSMTPConn ⟨[], []⟩).HandleHELO (bytes "HELO") (bytes " example.com")).state.ClientDomain
      = [] ∧
    firstWhitespaceToken (bytes " example.com") = bytes "example.com" ∧
    ((NewSMTPConn ⟨[], []⟩).HandleHELO (bytes "HELO") (bytes "a\tb")).state.ClientDomain
      = bytes "a\tb" ∧
    firstWhitespaceToken (bytes "a\tb") = bytes "a" := by
  decide

/-- C16 (amended): for every argument text, when no transaction is open (From
empty), `HandleHELO` stores as ClientDomain the part of text before its first
space character, the whole text when it has no space. -/
theorem HELO_stores_beforeFirstSpace (s : SMTPConn) (command text : GoString)
    (hF : s.stateTable.From = []) :
    ∃ s1, s.HandleHELO command text = .ok (s.conn.writeResults.headD none) s1 ∧
      s1.ClientDomain = beforeFirstSpace text := by
  refine ⟨_, HandleHELO_accepted s command text hF, ?_⟩
  exact Split_head text

/-- Witness of `HELO_stores_beforeFirstSpace` at the text `a.com b c`. -/
theorem HELO_stores_beforeFirstSpace_witness :
    ∃ s1, (NewSMTPConn ⟨[], []⟩).HandleHELO (bytes "HELO") (bytes "a.com b c") =
        .ok ((NewSMTPConn ⟨[], []⟩).conn.writeResults.headD none) s1 ∧
      s1.ClientDomain = beforeFirstSpace (bytes "a.com b c") :=
  HELO_stores_beforeFirstSpace (NewSMTPConn ⟨[], []⟩) (bytes "HELO") (bytes "a.com b c") rfl

/-- C17: for every session state with From empty, `HandleHELO` called with the
empty text does not panic on `words[0]`, sets ClientDomain to the empty string
and writes `250 OK` followed by CRLF. -/
theorem HELO_empty_text_accepted (s : SMTPConn) (command : GoString)
    (hF : s.stateTable.From = []) :
    ∃ s1, s.HandleHELO command [] = .ok (s.conn.writeResults.headD none) s1 ∧
      s1.ClientDomain = [] ∧
      s1.conn.trace =
        s.conn.trace ++ [Event.write (bytes "250 OK\r\n") (s.conn.writeResults.headD none)] := by
  refine ⟨_, HandleHELO_accepted s command [] hF, rfl, ?_⟩
  rw [afterWrite_trace]
  rfl

/-- Witness of `HELO_empty_text_accepted` in a fresh session. -/
theorem HELO_empty_text_accepted_witness :
    ∃ s1, (NewSMTPConn ⟨[], []⟩).HandleHELO (bytes "HELO") [] =
        .ok ((NewSMTPConn ⟨[], []⟩).conn.writeResults.headD none) s1 ∧
      s1.ClientDomain = [] ∧
      s1.conn.trace =
        (NewSMTPConn ⟨[], []⟩).conn.trace ++
          [Event.write (bytes "250 OK\r\n") ((NewSMTPConn ⟨[], []⟩).conn.writeResults.headD none)] :=
  HELO_empty_text_accepted (NewSMTPConn ⟨[], []⟩) (bytes "HELO") rfl

/-! ## The implicit invariants -/

theorem runCalls_ClientDomain (calls : List Call) (s : SMTPConn) (last : Option GoString)
    (h : (last = none ∧ s.ClientDomain = []) ∨
      ∃ text, last = some text ∧ s.ClientDomain = beforeFirstSpace text) :
    ((runCalls calls s last).2 = none ∧ (runCalls calls s last).1.ClientDomain = []) ∨
      ∃ text, (runCalls calls s last).2 = some text ∧
        (runCalls calls s last).1.ClientDomain = beforeFirstSpace text := by
  induction calls generalizing s last with
  | nil => exact h
  | cons c cs ih =>
    simp only [runCalls]
    apply ih
    cases c with
    | HandleHELO command text =>
      by_cases hF : s.stateTable.From = []
      · refine Or.inr ⟨text, by simp [Call.acceptedHELO, hF], ?_⟩
        simp only [Call.run, HandleHELO_accepted s command text hF, Result.state]
        exact Split_head text
      · have hrun : (Call.HandleHELO command text).run s = afterWrite s badSequenceMessage := by
          simp only [Call.run, HandleHELO_bad_sequence s command text hF, Result.state]
        rw [hrun]
        simpa [Call.acceptedHELO, hF, afterWrite] using h
    | HandleUnknownCommand command text =>
      have hrun : (Call.HandleUnknownCommand command text).run s =
          afterWrite s (unknownCommandMessage command) := by
        simp only [Call.run, HandleUnknownCommand_eq, Result.state]
      rw [hrun]
      simpa [Call.acceptedHELO, afterWrite] using h
    | HandleQUIT command text =>
      have hrun : (Call.HandleQUIT command text).run s = afterWrite s closingMessage := by
        simp only [Call.run, HandleQUIT_eq, Result.state]
      rw [hrun]
      simpa [Call.acceptedHELO, afterWrite] using h
    | ClearState =>
      simpa [Call.acceptedHELO, Call.run, SMTPConn.ClearState, StateTable.Clear] using h

/-- C18: in every state the command loop of `handleConnection` passes through,
From, To and Data are empty; the final state of the loop is such a state; in
such a state `HandleHELO` takes the accepting branch; and no write of a
session of `handleConnection` begins with `503`. -/
theorem From_stays_empty :
    (∀ (conn0 : Conn) (s : SMTPConn), LoopReachable conn0 s →
      s.stateTable.From = [] ∧ s.stateTable.To = [] ∧ s.stateTable.Data = []) ∧
    (∀ (conn0 : Conn) (reads : List ReadOutcome),
      LoopReachable conn0 (commandLoop reads (NewSMTPConn conn0)).state) ∧
    (∀ (conn0 : Conn) (s : SMTPConn) (command text : GoString), LoopReachable conn0 s →
      s.HandleHELO command text =
        .ok (s.conn.writeResults.headD none)
          (afterWrite { s with ClientDomain := (Split text space).headD [] } statusOKMessage)) ∧
    (∀ (srv : Server) (writeResults : List (Option GoError)) (reads : List ReadOutcome)
      (b : GoString) (res : Option GoError),
      Event.write b res ∈ (srv.handleConnection ⟨writeResults, []⟩ reads).2.trace →
      b.take 3 ≠ bytes "503") := by
  refine ⟨?_, ?_, ?_, ?_⟩
  · intro conn0 s h
    rw [LoopReachable_stateTable conn0 s h]
    exact ⟨rfl, rfl, rfl⟩
  · intro conn0 reads
    exact commandLoop_LoopReachable conn0 reads _ LoopReachable.start
  · intro conn0 s command text h
    apply HandleHELO_accepted
    rw [LoopReachable_stateTable conn0 s h]
    rfl
  · intro srv writeResults reads b res hmem
    obtain ⟨ev, hev, hno⟩ := commandLoop_no_503 reads
      (NewSMTPConn (writeStringWithCRLF ⟨writeResults, []⟩ srv.getWelcomeMessage).2) rfl
    rw [handleConnection_conn] at hmem
    simp only [Conn.Close] at hmem
    rw [hev] at hmem
    simp only [NewSMTPConn, writeStringWithCRLF_eq, List.nil_append, List.mem_append,
      List.mem_cons, List.mem_singleton, Event.write.injEq, List.not_mem_nil, or_false,
      reduceCtorEq] at hmem
    rcases hmem with ⟨rfl, _⟩ | hm
    · have h220 : (srv.getWelcomeMessage ++ CRLF).take 3 = bytes "220" := rfl
      rw [h220]
      decide
    · exact hno b res hm

set_option maxRecDepth 100000 in
/-- Witness of `From_stays_empty`: the state after the round that reads
`HELO a.com`, and the session that reads `HELO a.com` and then `HELO b.com`. -/
theorem From_stays_empty_witness :
    ((loopBody (NewSMTPConn ⟨[], []⟩) (.data (bytes "HELO a.com\r\n"))).state.stateTable.From = [] ∧
      (loopBody (NewSMTPConn ⟨[], []⟩) (.data (bytes "HELO a.com\r\n"))).state.stateTable.To = [] ∧
      (loopBody (NewSMTPConn ⟨[], []⟩) (.data (bytes "HELO a.com\r\n"))).state.stateTable.Data
        = []) ∧
    (bytes "250 OK\r\n").take 3 ≠ bytes "503" :=
  ⟨From_stays_empty.1 ⟨[], []⟩ _
      (LoopReachable.round _ (.data (bytes "HELO a.com\r\n")) LoopReachable.start),
   From_stays_empty.2.2.2 ⟨8000, bytes "localhost"⟩ []
      [.data (bytes "HELO a.com\r\n"), .data (bytes "HELO b.com\r\n")]
      (bytes "250 OK\r\n") none (by decide)⟩

/-- C19: for every server, connection and sequence of read outcomes,
`handleConnection` either returns nil or panics; it never reaches
`log.Fatal`. -/
theorem handleConnection_returns_nil (srv : Server) (conn : Conn) (reads : List ReadOutcome) :
    ((srv.handleConnection conn reads).1 = Exit.returned none ∨
      (srv.handleConnection conn reads).1 = Exit.panicked) ∧
    ∀ e : GoError, (srv.handleConnection conn reads).1 ≠ Exit.fatal e := by
  unfold Server.handleConnection
  cases h : commandLoop reads (NewSMTPConn (writeStringWithCRLF conn srv.getWelcomeMessage).2) <;>
    simp [h]

/-- C20: after any sequence of `HandleHELO`, `HandleUnknownCommand`,
`HandleQUIT` and `ClearState` calls from the state made by `NewSMTPConn`,
ClientDomain holds no space, and it is empty or is the part before the first
space of the text of the most recent accepted HELO. -/
theorem ClientDomain_has_no_space (conn0 : Conn) (calls : List Call) :
    space ∉ (runCalls calls (NewSMTPConn conn0) none).1.ClientDomain ∧
    ((runCalls calls (NewSMTPConn conn0) none).1.ClientDomain = [] ∨
      ∃ text, (runCalls calls (NewSMTPConn conn0) none).2 = some text ∧
        (runCalls calls (NewSMTPConn conn0) none).1.ClientDomain = beforeFirstSpace text) := by
  have h := runCalls_ClientDomain calls (NewSMTPConn conn0) none (Or.inl ⟨rfl, rfl⟩)
  rcases h with ⟨_, h0⟩ | ⟨text, hlast, hcd⟩
  · exact ⟨by rw [h0]; simp, Or.inl h0⟩
  · exact ⟨by rw [hcd]; exact space_not_mem_beforeFirstSpace text, Or.inr ⟨text, hlast, hcd⟩⟩

end SmtpGo
